import Mathlib

/-!
Verification of the scaleset autoscaler core: the Scaler state machine
(`internal/scaler/scaler.go`) and the two Engine backends
(`internal/engine/docker`, `internal/engine/gcp/gcp.go`).

Go maps `map[string]string` are embedded as association lists with the
usual overwrite-on-insert semantics; `len` of a map is the list length
(keys stay duplicate-free because insert first filters the key out).
Engine and upstream effects (JIT issuance, container/VM API calls) are
embedded as explicit oracles, and each operation returns the list of
backend calls it issued, so that claims about which calls happen can be
stated directly.
-/

/-- Keys of an association list (the Go map's key set, with multiplicity). -/
def mapKeys (m : List (String × String)) : List String := m.map Prod.fst

/-- Go `m[k] = v`: overwrite-or-insert. -/
def mapInsert (m : List (String × String)) (k v : String) : List (String × String) :=
  (k, v) :: m.filter (fun p => p.1 ≠ k)

/-- Go `delete(m, k)`. -/
def mapDelete (m : List (String × String)) (k : String) : List (String × String) :=
  m.filter (fun p => p.1 ≠ k)

/-- Go `v, ok := m[k]` (as an `Option`). -/
def mapLookup : List (String × String) → String → Option String
  | [], _ => none
  | (k, v) :: rest, key => if k = key then some v else mapLookup rest key

theorem mapKeys_mapInsert (m : List (String × String)) (k v : String) :
    mapKeys (mapInsert m k v) = k :: mapKeys (m.filter (fun p => p.1 ≠ k)) := rfl

theorem mem_mapKeys_mapInsert {m : List (String × String)} {k v x : String}
    (h : x ∈ mapKeys (mapInsert m k v)) : x = k ∨ x ∈ mapKeys m := by
  rw [mapKeys_mapInsert] at h
  rcases List.mem_cons.mp h with h | h
  · exact Or.inl h
  · right
    rcases List.mem_map.mp h with ⟨p, hp, hx⟩
    exact List.mem_map.mpr ⟨p, List.mem_of_mem_filter hp, hx⟩

theorem mapKeys_mapDelete_subset {m : List (String × String)} {k x : String}
    (h : x ∈ mapKeys (mapDelete m k)) : x ∈ mapKeys m ∧ x ≠ k := by
  rcases List.mem_map.mp h with ⟨p, hp, hx⟩
  refine ⟨List.mem_map.mpr ⟨p, List.mem_of_mem_filter hp, hx⟩, ?_⟩
  have h2 := List.of_mem_filter hp
  simp only [decide_eq_true_eq] at h2
  exact hx ▸ h2

theorem mapKeys_nodup_mapInsert {m : List (String × String)} {k v : String}
    (h : (mapKeys m).Nodup) : (mapKeys (mapInsert m k v)).Nodup := by
  rw [mapKeys_mapInsert]
  refine List.nodup_cons.mpr ⟨?_, ?_⟩
  · intro hk
    rcases List.mem_map.mp hk with ⟨p, hp, hx⟩
    have h2 := List.of_mem_filter hp
    simp only [decide_eq_true_eq] at h2
    exact h2 hx
  · exact List.Nodup.sublist (List.Sublist.map _ (List.filter_sublist m)) h

theorem mapKeys_nodup_mapDelete {m : List (String × String)} {k : String}
    (h : (mapKeys m).Nodup) : (mapKeys (mapDelete m k)).Nodup :=
  List.Nodup.sublist (List.Sublist.map _ (List.filter_sublist m)) h

theorem mapInsert_length_le (m : List (String × String)) (k v : String) :
    (mapInsert m k v).length ≤ m.length + 1 := by
  have := List.length_filter_le (fun p : String × String => p.1 ≠ k) m
  simpa [mapInsert] using this

theorem mapDelete_length_le (m : List (String × String)) (k : String) :
    (mapDelete m k).length ≤ m.length :=
  List.length_filter_le _ m

theorem mapInsert_length_of_not_mem {m : List (String × String)} {k : String} (v : String)
    (h : k ∉ mapKeys m) : (mapInsert m k v).length = m.length + 1 := by
  have hfil : m.filter (fun p => p.1 ≠ k) = m := by
    apply List.filter_eq_self.mpr
    intro p hp
    refine decide_eq_true ?_
    intro hk
    exact h (List.mem_map.mpr ⟨p, hp, hk⟩)
  simp only [mapInsert, hfil, List.length_cons]

theorem mapDelete_length_of_mem {m : List (String × String)} {k : String}
    (hnd : (mapKeys m).Nodup) (h : k ∈ mapKeys m) :
    (mapDelete m k).length + 1 = m.length := by
  induction m with
  | nil => simp [mapKeys] at h
  | cons p rest ih =>
    obtain ⟨k1, v1⟩ := p
    simp only [mapKeys, List.map_cons] at hnd
    have hnd' : (mapKeys rest).Nodup := (List.nodup_cons.mp hnd).2
    by_cases he : k1 = k
    · subst he
      have hrest : k1 ∉ mapKeys rest := (List.nodup_cons.mp hnd).1
      have hfil : rest.filter (fun q => q.1 ≠ k1) = rest := by
        apply List.filter_eq_self.mpr
        intro q hq
        refine decide_eq_true ?_
        intro hk
        exact hrest (List.mem_map.mpr ⟨q, hq, hk⟩)
      have hdel : mapDelete ((k1, v1) :: rest) k1 = rest := by
        simp only [mapDelete, List.filter_cons]
        rw [if_neg (by simp), hfil]
      rw [hdel]
      rfl
    · have h1 : k ∈ mapKeys rest := by
        have h2 : k = k1 ∨ k ∈ mapKeys rest := by simpa [mapKeys] using h
        rcases h2 with h2 | h2
        · exact absurd h2.symm he
        · exact h2
      have hdel : mapDelete ((k1, v1) :: rest) k = (k1, v1) :: mapDelete rest k := by
        simp only [mapDelete, List.filter_cons]
        rw [if_pos (by simp [he])]
      have h3 := ih hnd' h1
      rw [hdel]
      simp only [List.length_cons]
      omega

theorem mapLookup_eq_some_mem {m : List (String × String)} {k v : String}
    (h : mapLookup m k = some v) : k ∈ mapKeys m := by
  induction m with
  | nil => simp [mapLookup] at h
  | cons p rest ih =>
    obtain ⟨k1, v1⟩ := p
    by_cases he : k1 = k
    · subst he
      exact List.mem_map.mpr ⟨(k1, v1), List.mem_cons_self _ _, rfl⟩
    · simp only [mapLookup, if_neg he] at h
      simp only [mapKeys, List.map_cons]
      exact List.mem_cons.mpr (Or.inr (ih h))

theorem mapLookup_eq_none_of_not_mem {m : List (String × String)} {k : String}
    (h : k ∉ mapKeys m) : mapLookup m k = none := by
  induction m with
  | nil => rfl
  | cons p rest ih =>
    obtain ⟨k1, v1⟩ := p
    have hne : k1 ≠ k := by
      intro he
      exact h (List.mem_cons.mpr (Or.inl he.symm))
    have hrest : k ∉ mapKeys rest := fun hm => h (List.mem_cons.mpr (Or.inr hm))
    simp [mapLookup, hne, ih hrest]

/-!
## Scaler (`internal/scaler/scaler.go`)

`Scaler` keeps two maps `idle` / `busy` (runner name → engine id) plus the
`minRunners` / `maxRunners` parameters.  Name generation
(`uuid.NewString()[:8]`), JIT issuance and the engine are embedded as
oracles: `supply i` is the name produced by the i-th `startRunner`
invocation of the process, and `outcome i` says whether that invocation
failed at `GenerateJitRunnerConfig`, failed at `engine.StartRunner`, or
succeeded with a backend id.  Every operation additionally returns the
list of engine calls it issued.
-/

/-- The two inventory maps of the `Scaler` struct. -/
structure ScalerState where
  idle : List (String × String)
  busy : List (String × String)
deriving DecidableEq

/-- `len(s.idle) + len(s.busy)`, as the Go `int` (`runnerCount`). -/
def runnerCount (st : ScalerState) : Int :=
  (st.idle.length : Int) + (st.busy.length : Int)

/-- Engine calls a Scaler operation can issue. -/
inductive EngineCall where
  | start (name : String)
  | destroy (id : String)
deriving DecidableEq

/-- Result of one `startRunner` invocation, as seen through its two
fallible effects (JIT generation, `engine.StartRunner`). -/
inductive StartOutcome where
  | jitErr (e : String)
  | engineErr (e : String)
  | ok (id : String)
deriving DecidableEq

/-- Did this `startRunner` invocation succeed? -/
def StartOutcome.isOk : StartOutcome → Bool
  | .ok _ => true
  | _ => false

/-- The error `HandleDesiredRunnerCount` returns when the `startRunner`
for `name` ends in this outcome (`fmt.Errorf("start runner: %w", err)`
around the wrapping done inside `startRunner`). -/
def StartOutcome.errMsg (name : String) : StartOutcome → Option String
  | .jitErr e => some ("start runner: generate JIT config for " ++ name ++ ": " ++ e)
  | .engineErr e => some ("start runner: engine start " ++ name ++ ": " ++ e)
  | .ok _ => none

/-- Result of the scale-up loop inside `HandleDesiredRunnerCount`. -/
structure LoopResult where
  state : ScalerState
  k : Nat
  calls : List EngineCall
  err : Option String
deriving DecidableEq

/-- The `for range delta` loop of `HandleDesiredRunnerCount`: call
`startRunner` up to `n` times, stopping at the first error.  `k` is the
global index of the next `startRunner` invocation (each invocation
consumes one generated name, whether or not it succeeds); a successful
invocation stores `s.idle[name] = id`. -/
def scaleLoop (supply : Nat → String) (outcome : Nat → StartOutcome) :
    Nat → Nat → ScalerState → LoopResult
  | k, 0, st => ⟨st, k, [], none⟩
  | k, n + 1, st =>
    match outcome k with
    | .jitErr e =>
        ⟨st, k + 1, [],
          some ("start runner: generate JIT config for " ++ supply k ++ ": " ++ e)⟩
    | .engineErr e =>
        ⟨st, k + 1, [.start (supply k)],
          some ("start runner: engine start " ++ supply k ++ ": " ++ e)⟩
    | .ok id =>
        let r := scaleLoop supply outcome (k + 1) n
          ⟨mapInsert st.idle (supply k) id, st.busy⟩
        ⟨r.state, r.k, .start (supply k) :: r.calls, r.err⟩

/-- Result of `HandleDesiredRunnerCount`: final inventories, next global
`startRunner` index, engine calls issued, the returned `int`, the
returned `error`. -/
structure DesiredResult where
  state : ScalerState
  k : Nat
  calls : List EngineCall
  ret : Int
  err : Option String
deriving DecidableEq

/-- `HandleDesiredRunnerCount(ctx, count)`: compute
`targetCount = min(maxRunners, minRunners+count)` and switch on its
relation to `currentCount = len(idle)+len(busy)`. -/
def handleDesiredRunnerCount (minR maxR : Int) (supply : Nat → String)
    (outcome : Nat → StartOutcome) (k : Nat) (st : ScalerState) (count : Int) :
    DesiredResult :=
  if min maxR (minR + count) = runnerCount st then
    ⟨st, k, [], runnerCount st, none⟩
  else if runnerCount st < min maxR (minR + count) then
    let r := scaleLoop supply outcome k (min maxR (minR + count) - runnerCount st).toNat st
    ⟨r.state, r.k, r.calls, runnerCount r.state, r.err⟩
  else
    ⟨st, k, [], runnerCount st, none⟩

/-- `HandleJobStarted`: move the runner from `idle` to `busy` if it is
idle, otherwise warn and do nothing.  The returned error is always nil. -/
def handleJobStarted (st : ScalerState) (name : String) :
    ScalerState × Option String :=
  match mapLookup st.idle name with
  | none => (st, none)
  | some id => (⟨mapDelete st.idle name, mapInsert st.busy name id⟩, none)

/-- `removeRunner`: delete the runner from `busy`, else from `idle`,
returning the stored engine id ("" when not tracked). -/
def removeRunner (st : ScalerState) (name : String) : ScalerState × String :=
  match mapLookup st.busy name with
  | some id => (⟨st.idle, mapDelete st.busy name⟩, id)
  | none =>
    match mapLookup st.idle name with
    | some id => (⟨mapDelete st.idle name, st.busy⟩, id)
    | none => (st, "")

/-- Result of `HandleJobCompleted`. -/
structure CompletedResult where
  state : ScalerState
  calls : List EngineCall
  err : Option String
deriving DecidableEq

/-- `HandleJobCompleted`: remove the runner from the inventory via
`removeRunner`; when the returned id is "" treat the runner as unknown
(warn, return nil); otherwise call `engine.DestroyRunner(id)`
(`destroyRes id` is its result) and wrap any failure. -/
def handleJobCompleted (destroyRes : String → Option String)
    (st : ScalerState) (name : String) : CompletedResult :=
  match removeRunner st name with
  | (st', id) =>
    if id = "" then ⟨st', [], none⟩
    else
      match destroyRes id with
      | some e =>
          ⟨st', [.destroy id],
            some ("destroy runner " ++ name ++ " (" ++ id ++ "): " ++ e)⟩
      | none => ⟨st', [.destroy id], none⟩

/-- `Scaler.Shutdown`: `engine.Shutdown` then clear both maps; engine
errors are logged, never returned. -/
def scalerShutdown (_st : ScalerState) : ScalerState := ⟨[], []⟩

/-- Number of `engine.StartRunner` calls in a call trace. -/
def countStarts (l : List EngineCall) : Nat :=
  l.countP (fun c => match c with | .start _ => true | .destroy _ => false)

/-! ### Lemmas about the scale-up loop -/

theorem scaleLoop_zero (supply : Nat → String) (outcome : Nat → StartOutcome)
    (k : Nat) (st : ScalerState) : scaleLoop supply outcome k 0 st = ⟨st, k, [], none⟩ := rfl

theorem scaleLoop_allOk (supply : Nat → String) (outcome : Nat → StartOutcome) :
    ∀ (n k : Nat) (st : ScalerState),
      (∀ i, i < n → (outcome (k + i)).isOk = true) →
      (scaleLoop supply outcome k n st).err = none ∧
      countStarts (scaleLoop supply outcome k n st).calls = n ∧
      (scaleLoop supply outcome k n st).state.busy = st.busy := by
  intro n
  induction n with
  | zero => intro k st _; exact ⟨rfl, rfl, rfl⟩
  | succ n ih =>
    intro k st h
    have h0 : (outcome k).isOk = true := by
      have := h 0 (Nat.succ_pos n)
      simpa using this
    cases ho : outcome k with
    | jitErr e => rw [ho] at h0; simp [StartOutcome.isOk] at h0
    | engineErr e => rw [ho] at h0; simp [StartOutcome.isOk] at h0
    | ok id =>
      have hrest : ∀ i, i < n → (outcome (k + 1 + i)).isOk = true := by
        intro i hi
        have h2 := h (i + 1) (Nat.succ_lt_succ hi)
        rwa [show k + (i + 1) = k + 1 + i by omega] at h2
      have ihr := ih (k + 1) ⟨mapInsert st.idle (supply k) id, st.busy⟩ hrest
      refine ⟨?_, ?_, ?_⟩ <;> simp [scaleLoop, ho, countStarts] at * <;>
        simp [ihr.1, ihr.2.1, ihr.2.2, countStarts]

theorem scaleLoop_allOk_size (supply : Nat → String) (outcome : Nat → StartOutcome)
    (hinj : Function.Injective supply) :
    ∀ (n k : Nat) (st : ScalerState),
      (∀ i, i < n → (outcome (k + i)).isOk = true) →
      (∀ i, k ≤ i → supply i ∉ mapKeys st.idle) →
      runnerCount (scaleLoop supply outcome k n st).state = runnerCount st + n := by
  intro n
  induction n with
  | zero => intro k st _ _; simp [scaleLoop_zero]
  | succ n ih =>
    intro k st h hfresh
    have h0 : (outcome k).isOk = true := by
      have := h 0 (Nat.succ_pos n)
      simpa using this
    cases ho : outcome k with
    | jitErr e => rw [ho] at h0; simp [StartOutcome.isOk] at h0
    | engineErr e => rw [ho] at h0; simp [StartOutcome.isOk] at h0
    | ok id =>
      have hrest : ∀ i, i < n → (outcome (k + 1 + i)).isOk = true := by
        intro i hi
        have h2 := h (i + 1) (Nat.succ_lt_succ hi)
        rwa [show k + (i + 1) = k + 1 + i by omega] at h2
      have hlen : (mapInsert st.idle (supply k) id).length = st.idle.length + 1 :=
        mapInsert_length_of_not_mem id (hfresh k (Nat.le_refl k))
      have hfresh' : ∀ i, k + 1 ≤ i →
          supply i ∉ mapKeys (mapInsert st.idle (supply k) id) := by
        intro i hi hmem
        rcases mem_mapKeys_mapInsert hmem with h2 | h2
        · have : i = k := hinj h2
          omega
        · exact hfresh i (by omega) h2
      have ihr := ih (k + 1) ⟨mapInsert st.idle (supply k) id, st.busy⟩ hrest hfresh'
      have hred : (scaleLoop supply outcome k (n + 1) st).state =
          (scaleLoop supply outcome (k + 1) n
            ⟨mapInsert st.idle (supply k) id, st.busy⟩).state := by
        simp [scaleLoop, ho]
      rw [hred, ihr]
      simp only [runnerCount, hlen]
      push_cast
      ring

theorem scaleLoop_firstFail (supply : Nat → String) (outcome : Nat → StartOutcome)
    (hinj : Function.Injective supply) :
    ∀ (j n k : Nat) (st : ScalerState), j < n →
      (outcome (k + j)).isOk = false →
      (∀ i, i < j → (outcome (k + i)).isOk = true) →
      (∀ i, k ≤ i → supply i ∉ mapKeys st.idle) →
      (scaleLoop supply outcome k n st).err =
        StartOutcome.errMsg (supply (k + j)) (outcome (k + j)) ∧
      runnerCount (scaleLoop supply outcome k n st).state = runnerCount st + j ∧
      (scaleLoop supply outcome k n st).state.busy = st.busy := by
  intro j
  induction j with
  | zero =>
    intro n k st hjn h0 _ _
    obtain ⟨n', rfl⟩ : ∃ n', n = n' + 1 := ⟨n - 1, by omega⟩
    rw [show k + 0 = k by omega] at h0 ⊢
    cases ho : outcome k with
    | jitErr e => refine ⟨?_, ?_, ?_⟩ <;> simp [scaleLoop, ho, StartOutcome.errMsg]
    | engineErr e => refine ⟨?_, ?_, ?_⟩ <;> simp [scaleLoop, ho, StartOutcome.errMsg]
    | ok id => rw [ho] at h0; simp [StartOutcome.isOk] at h0
  | succ j ih =>
    intro n k st hjn hj hpre hfresh
    obtain ⟨n', rfl⟩ : ∃ n', n = n' + 1 := ⟨n - 1, by omega⟩
    have h0 : (outcome k).isOk = true := by
      have := hpre 0 (Nat.succ_pos j)
      simpa using this
    cases ho : outcome k with
    | jitErr e => rw [ho] at h0; simp [StartOutcome.isOk] at h0
    | engineErr e => rw [ho] at h0; simp [StartOutcome.isOk] at h0
    | ok id =>
      have hfresh' : ∀ i, k + 1 ≤ i →
          supply i ∉ mapKeys (mapInsert st.idle (supply k) id) := by
        intro i hi hmem
        rcases mem_mapKeys_mapInsert hmem with h2 | h2
        · have : i = k := hinj h2
          omega
        · exact hfresh i (by omega) h2
      have hlen : (mapInsert st.idle (supply k) id).length = st.idle.length + 1 :=
        mapInsert_length_of_not_mem id (hfresh k (Nat.le_refl k))
      have ihr := ih n' (k + 1) ⟨mapInsert st.idle (supply k) id, st.busy⟩
        (by omega)
        (by rwa [show k + 1 + j = k + (j + 1) by omega])
        (by
          intro i hi
          have h2 := hpre (i + 1) (Nat.succ_lt_succ hi)
          rwa [show k + (i + 1) = k + 1 + i by omega] at h2)
        hfresh'
      have hred : scaleLoop supply outcome k (n' + 1) st =
          ⟨(scaleLoop supply outcome (k + 1) n'
              ⟨mapInsert st.idle (supply k) id, st.busy⟩).state,
            (scaleLoop supply outcome (k + 1) n'
              ⟨mapInsert st.idle (supply k) id, st.busy⟩).k,
            .start (supply k) :: (scaleLoop supply outcome (k + 1) n'
              ⟨mapInsert st.idle (supply k) id, st.busy⟩).calls,
            (scaleLoop supply outcome (k + 1) n'
              ⟨mapInsert st.idle (supply k) id, st.busy⟩).err⟩ := by
        simp [scaleLoop, ho]
      rw [hred]
      refine ⟨?_, ?_, ?_⟩
      · rw [show k + 1 + j = k + (j + 1) by omega] at ihr
        exact ihr.1
      · have := ihr.2.1
        simp only [runnerCount, hlen] at this ⊢
        push_cast at this ⊢
        omega
      · exact ihr.2.2

/-! ### Branch lemmas for `HandleDesiredRunnerCount` -/

theorem handleDesiredRunnerCount_eq_case (minR maxR : Int) (supply : Nat → String)
    (outcome : Nat → StartOutcome) (k : Nat) (st : ScalerState) (count : Int)
    (h : min maxR (minR + count) = runnerCount st) :
    handleDesiredRunnerCount minR maxR supply outcome k st count =
      ⟨st, k, [], runnerCount st, none⟩ := by
  simp [handleDesiredRunnerCount, h]

theorem handleDesiredRunnerCount_gt_case (minR maxR : Int) (supply : Nat → String)
    (outcome : Nat → StartOutcome) (k : Nat) (st : ScalerState) (count : Int)
    (h : runnerCount st < min maxR (minR + count)) :
    handleDesiredRunnerCount minR maxR supply outcome k st count =
      ⟨(scaleLoop supply outcome k (min maxR (minR + count) - runnerCount st).toNat st).state,
        (scaleLoop supply outcome k (min maxR (minR + count) - runnerCount st).toNat st).k,
        (scaleLoop supply outcome k (min maxR (minR + count) - runnerCount st).toNat st).calls,
        runnerCount (scaleLoop supply outcome k
          (min maxR (minR + count) - runnerCount st).toNat st).state,
        (scaleLoop supply outcome k (min maxR (minR + count) - runnerCount st).toNat st).err⟩ := by
  have hne : ¬ (min maxR (minR + count) = runnerCount st) := by omega
  simp [handleDesiredRunnerCount, hne, h]

theorem handleDesiredRunnerCount_lt_case (minR maxR : Int) (supply : Nat → String)
    (outcome : Nat → StartOutcome) (k : Nat) (st : ScalerState) (count : Int)
    (h : min maxR (minR + count) < runnerCount st) :
    handleDesiredRunnerCount minR maxR supply outcome k st count =
      ⟨st, k, [], runnerCount st, none⟩ := by
  have hne : ¬ (min maxR (minR + count) = runnerCount st) := by omega
  have hnlt : ¬ (runnerCount st < min maxR (minR + count)) := by omega
  simp [handleDesiredRunnerCount, hne, hnlt]

/-- Concrete injective name supply used by witnesses (stands in for the
distinct names produced by `uuid.NewString()`). -/
def wSupply : Nat → String := fun i => String.mk (List.replicate i 'a')

theorem wSupply_injective : Function.Injective wSupply := by
  intro a b h
  have h2 := congrArg (fun s : String => s.data.length) h
  simpa [wSupply] using h2

/-- C1.  `HandleDesiredRunnerCount` computes
`target = min(maxRunners, minRunners + count)` against
`current = |idle| + |busy|`.  When `target = current` it issues no engine
start and returns `current` with no error.  When `target > current` and
every `startRunner` succeeds it issues exactly `target - current`
(`= max(0, target - current)`) engine starts and returns the resulting
count `target`; when the `j`-th `startRunner` fails first, its wrapped
error is propagated and the returned count is `current + j` — the `j`
runners already started stay in the inventory (no rollback).
Hypotheses: the generated names are pairwise distinct and unused, as
`uuid` names are. -/
theorem handleDesiredRunnerCount_target_and_starts
    (minR maxR : Int) (supply : Nat → String) (outcome : Nat → StartOutcome)
    (k : Nat) (st : ScalerState) (count : Int)
    (hinj : Function.Injective supply)
    (hfresh : ∀ i, k ≤ i → supply i ∉ mapKeys st.idle) :
    (min maxR (minR + count) = runnerCount st →
      handleDesiredRunnerCount minR maxR supply outcome k st count =
        ⟨st, k, [], runnerCount st, none⟩) ∧
    (runnerCount st < min maxR (minR + count) →
      ((∀ i, i < (min maxR (minR + count) - runnerCount st).toNat →
          (outcome (k + i)).isOk = true) →
        (handleDesiredRunnerCount minR maxR supply outcome k st count).err = none ∧
        countStarts (handleDesiredRunnerCount minR maxR supply outcome k st count).calls =
          (min maxR (minR + count) - runnerCount st).toNat ∧
        (handleDesiredRunnerCount minR maxR supply outcome k st count).ret =
          min maxR (minR + count)) ∧
      (∀ j, j < (min maxR (minR + count) - runnerCount st).toNat →
          (outcome (k + j)).isOk = false →
          (∀ i, i < j → (outcome (k + i)).isOk = true) →
        (handleDesiredRunnerCount minR maxR supply outcome k st count).err =
          StartOutcome.errMsg (supply (k + j)) (outcome (k + j)) ∧
        (handleDesiredRunnerCount minR maxR supply outcome k st count).ret =
          runnerCount st + (j : Int))) := by
  constructor
  · intro h
    exact handleDesiredRunnerCount_eq_case minR maxR supply outcome k st count h
  · intro hgt
    have hcast : ((min maxR (minR + count) - runnerCount st).toNat : Int) =
        min maxR (minR + count) - runnerCount st :=
      Int.toNat_of_nonneg (by omega)
    constructor
    · intro hok
      have h1 := scaleLoop_allOk supply outcome
        (min maxR (minR + count) - runnerCount st).toNat k st hok
      have h2 := scaleLoop_allOk_size supply outcome hinj
        (min maxR (minR + count) - runnerCount st).toNat k st hok hfresh
      rw [handleDesiredRunnerCount_gt_case minR maxR supply outcome k st count hgt]
      refine ⟨h1.1, h1.2.1, ?_⟩
      show runnerCount (scaleLoop supply outcome k
        (min maxR (minR + count) - runnerCount st).toNat st).state = _
      omega
    · intro j hj hjfail hjpre
      have h1 := scaleLoop_firstFail supply outcome hinj j
        (min maxR (minR + count) - runnerCount st).toNat k st hj hjfail hjpre hfresh
      rw [handleDesiredRunnerCount_gt_case minR maxR supply outcome k st count hgt]
      exact ⟨h1.1, h1.2.1⟩

/-- Witness for C1: from the empty inventory with `min=0, max=5` and two
successful starts, `HandleDesiredRunnerCount(2)` returns 2 with no error
and issues 2 engine starts. -/
theorem handleDesiredRunnerCount_target_and_starts_witness :
    (handleDesiredRunnerCount 0 5 wSupply (fun _ => .ok "cid") 0 ⟨[], []⟩ 2).ret = 2 ∧
    (handleDesiredRunnerCount 0 5 wSupply (fun _ => .ok "cid") 0 ⟨[], []⟩ 2).err = none ∧
    countStarts (handleDesiredRunnerCount 0 5 wSupply (fun _ => .ok "cid") 0 ⟨[], []⟩ 2).calls = 2 := by
  have h := handleDesiredRunnerCount_target_and_starts 0 5 wSupply (fun _ => .ok "cid")
    0 ⟨[], []⟩ 2 wSupply_injective (fun i _ => by simp [mapKeys])
  have h3 := (h.2 (by decide)).1 (fun i _ => rfl)
  refine ⟨?_, h3.1, by simpa using h3.2.1⟩
  rw [h3.2.2]
  decide

/-- C8.  When `target < current`, `HandleDesiredRunnerCount` issues no
engine call at all (in particular no `DestroyRunner`), leaves both
inventory maps unchanged, and returns `current` with no error. -/
theorem handleDesiredRunnerCount_scale_down_noop
    (minR maxR : Int) (supply : Nat → String) (outcome : Nat → StartOutcome)
    (k : Nat) (st : ScalerState) (count : Int)
    (h : min maxR (minR + count) < runnerCount st) :
    handleDesiredRunnerCount minR maxR supply outcome k st count =
      ⟨st, k, [], runnerCount st, none⟩ := by
  exact handleDesiredRunnerCount_lt_case minR maxR supply outcome k st count h

/-- Witness for C8: two runners present, `min=0, max=5`, `desired=0`:
target 0 < current 2, so nothing happens and 2 is returned. -/
theorem handleDesiredRunnerCount_scale_down_noop_witness :
    handleDesiredRunnerCount 0 5 wSupply (fun _ => .ok "x") 0
      ⟨[("ra", "1")], [("rb", "2")]⟩ 0 =
      ⟨⟨[("ra", "1")], [("rb", "2")]⟩, 0, [], 2, none⟩ := by
  have h := handleDesiredRunnerCount_scale_down_noop 0 5 wSupply (fun _ => .ok "x") 0
    ⟨[("ra", "1")], [("rb", "2")]⟩ 0 (by decide)
  simpa using h

/-- C10.  `HandleDesiredRunnerCount` never validates `count`: every
integer, negative included, goes through
`target = min(maxRunners, minRunners + count)`.  When
`minRunners + count ≤ current` the call is a no-op returning `current`
with no error; and a negative `count` still provisions whenever the
formula exceeds the current inventory, as the concrete run with
`min=5, max=10, count=-1` over inventory size 2 shows (2 starts issued). -/
theorem handleDesiredRunnerCount_no_count_validation
    (minR maxR : Int) (supply : Nat → String) (outcome : Nat → StartOutcome)
    (k : Nat) (st : ScalerState) (count : Int) :
    (minR + count ≤ runnerCount st →
      handleDesiredRunnerCount minR maxR supply outcome k st count =
        ⟨st, k, [], runnerCount st, none⟩) ∧
    countStarts (handleDesiredRunnerCount 5 10 wSupply (fun _ => .ok "x") 0
      ⟨[("idle-a", "1")], [("busy-b", "2")]⟩ (-1)).calls = 2 ∧
    (handleDesiredRunnerCount 5 10 wSupply (fun _ => .ok "x") 0
      ⟨[("idle-a", "1")], [("busy-b", "2")]⟩ (-1)).err = none := by
  refine ⟨?_, by decide, by decide⟩
  intro h
  have hle : min maxR (minR + count) ≤ runnerCount st :=
    le_trans (min_le_right _ _) h
  rcases eq_or_lt_of_le hle with he | hlt
  · exact handleDesiredRunnerCount_eq_case minR maxR supply outcome k st count he
  · exact handleDesiredRunnerCount_lt_case minR maxR supply outcome k st count hlt

/-- Witness for C10: `min=0, count=-3` over the empty inventory is a
no-op returning 0. -/
theorem handleDesiredRunnerCount_no_count_validation_witness :
    handleDesiredRunnerCount 0 5 wSupply (fun _ => .ok "x") 0 ⟨[], []⟩ (-3) =
      ⟨⟨[], []⟩, 0, [], 0, none⟩ := by
  have h := handleDesiredRunnerCount_no_count_validation 0 5 wSupply (fun _ => .ok "x")
    0 ⟨[], []⟩ (-3)
  simpa using h.1 (by decide)

/-- C7.  Lifecycle events are idempotent at the Scaler: `HandleJobStarted`
for a name that is not idle (e.g. already moved to `busy` by a duplicate
message) changes nothing and returns nil, and `HandleJobCompleted` for a
name tracked in neither map issues no engine call and returns nil. -/
theorem lifecycle_idempotent (st : ScalerState) (destroyRes : String → Option String)
    (name : String) :
    (name ∉ mapKeys st.idle → handleJobStarted st name = (st, none)) ∧
    (name ∉ mapKeys st.busy → name ∉ mapKeys st.idle →
      handleJobCompleted destroyRes st name = ⟨st, [], none⟩) := by
  constructor
  · intro h
    simp [handleJobStarted, mapLookup_eq_none_of_not_mem h]
  · intro hb hi
    simp [handleJobCompleted, removeRunner, mapLookup_eq_none_of_not_mem hb,
      mapLookup_eq_none_of_not_mem hi]

/-- Witness for C7 at a name tracked nowhere (and in particular not idle). -/
theorem lifecycle_idempotent_witness :
    handleJobStarted ⟨[], [("rb", "1")]⟩ "rx" = (⟨[], [("rb", "1")]⟩, none) ∧
    handleJobCompleted (fun _ => none) ⟨[], [("rb", "1")]⟩ "rx" =
      ⟨⟨[], [("rb", "1")]⟩, [], none⟩ := by
  have h := lifecycle_idempotent ⟨[], [("rb", "1")]⟩ (fun _ => none) "rx"
  exact ⟨h.1 (by decide), h.2 (by decide) (by decide)⟩

/-- Counterexample to C6 as stated: with the inventory mapping runner "r"
to the empty backend id, "r" *is* found (in `idle`), yet
`HandleJobCompleted` removes the entry and returns nil without ever
invoking `engine.DestroyRunner` — `removeRunner`'s "" sentinel makes the
entry indistinguishable from an untracked runner. -/
theorem handleJobCompleted_found_without_destroy_counterexample :
    "r" ∈ mapKeys (ScalerState.mk [("r", "")] []).idle ∧
    handleJobCompleted (fun _ => none) ⟨[("r", "")], []⟩ "r" = ⟨⟨[], []⟩, [], none⟩ := by
  exact ⟨by decide, by decide⟩

/-- C6 (amended).  `HandleJobCompleted` locates the runner preferring
`busy` and falling back to `idle`.  Not found: no-op, nil, no engine
call.  Found with a non-empty id: the entry is removed (the final state
does not depend on the destroy result, so a failed destroy does not undo
the removal), exactly one `DestroyRunner(id)` is issued, and a destroy
failure is surfaced wrapped.  Found with an empty id: the entry is
removed but no destroy is issued and nil is returned. -/
theorem handleJobCompleted_spec (destroyRes : String → Option String)
    (st : ScalerState) (name : String) :
    (mapLookup st.busy name = none → mapLookup st.idle name = none →
      handleJobCompleted destroyRes st name = ⟨st, [], none⟩) ∧
    (∀ id, mapLookup st.busy name = some id → id ≠ "" →
      (handleJobCompleted destroyRes st name).state = ⟨st.idle, mapDelete st.busy name⟩ ∧
      (handleJobCompleted destroyRes st name).calls = [.destroy id] ∧
      (handleJobCompleted destroyRes st name).err = (destroyRes id).map
        (fun e => "destroy runner " ++ name ++ " (" ++ id ++ "): " ++ e)) ∧
    (∀ id, mapLookup st.busy name = none → mapLookup st.idle name = some id → id ≠ "" →
      (handleJobCompleted destroyRes st name).state = ⟨mapDelete st.idle name, st.busy⟩ ∧
      (handleJobCompleted destroyRes st name).calls = [.destroy id] ∧
      (handleJobCompleted destroyRes st name).err = (destroyRes id).map
        (fun e => "destroy runner " ++ name ++ " (" ++ id ++ "): " ++ e)) ∧
    ((mapLookup st.busy name = some "" ∨
        (mapLookup st.busy name = none ∧ mapLookup st.idle name = some "")) →
      (handleJobCompleted destroyRes st name).calls = [] ∧
      (handleJobCompleted destroyRes st name).err = none) := by
  refine ⟨?_, ?_, ?_, ?_⟩
  · intro hb hi
    simp [handleJobCompleted, removeRunner, hb, hi]
  · intro id hb hne
    cases hd : destroyRes id <;>
      simp [handleJobCompleted, removeRunner, hb, hne, hd]
  · intro id hb hi hne
    cases hd : destroyRes id <;>
      simp [handleJobCompleted, removeRunner, hb, hi, hne, hd]
  · intro h
    rcases h with hb | ⟨hb, hi⟩
    · simp [handleJobCompleted, removeRunner, hb]
    · simp [handleJobCompleted, removeRunner, hb, hi]

/-- Witness for C6 (amended): a busy runner with id "id1" whose destroy
fails with "boom": the entry is removed, one destroy is issued, and the
wrapped error is surfaced. -/
theorem handleJobCompleted_spec_witness :
    (handleJobCompleted (fun _ => some "boom") ⟨[], [("r", "id1")]⟩ "r").state = ⟨[], []⟩ ∧
    (handleJobCompleted (fun _ => some "boom") ⟨[], [("r", "id1")]⟩ "r").calls =
      [.destroy "id1"] ∧
    (handleJobCompleted (fun _ => some "boom") ⟨[], [("r", "id1")]⟩ "r").err =
      some "destroy runner r (id1): boom" := by
  have h := (handleJobCompleted_spec (fun _ => some "boom") ⟨[], [("r", "id1")]⟩ "r").2.1
    "id1" (by decide) (by decide)
  refine ⟨?_, h.2.1, ?_⟩
  · rw [h.1]; decide
  · rw [h.2.2]; decide

/-- C9.  When the inventory maps a runner to the empty backend id (the
state produced when `engine.StartRunner` returned ""), a later
`HandleJobCompleted` for that runner deletes the entry but never calls
`engine.DestroyRunner` and returns nil: `removeRunner`'s "" result is
indistinguishable from "runner not tracked". -/
theorem handleJobCompleted_emptyId_spec (destroyRes : String → Option String)
    (st : ScalerState) (name : String) :
    (mapLookup st.busy name = some "" →
      handleJobCompleted destroyRes st name =
        ⟨⟨st.idle, mapDelete st.busy name⟩, [], none⟩) ∧
    (mapLookup st.busy name = none → mapLookup st.idle name = some "" →
      handleJobCompleted destroyRes st name =
        ⟨⟨mapDelete st.idle name, st.busy⟩, [], none⟩) := by
  constructor
  · intro hb
    simp [handleJobCompleted, removeRunner, hb]
  · intro hb hi
    simp [handleJobCompleted, removeRunner, hb, hi]

/-- Witness for C9: busy runner "r" with empty id is removed with no
destroy call. -/
theorem handleJobCompleted_emptyId_spec_witness :
    handleJobCompleted (fun _ => some "never") ⟨[], [("r", "")]⟩ "r" =
      ⟨⟨[], []⟩, [], none⟩ := by
  have h := (handleJobCompleted_emptyId_spec (fun _ => some "never")
    ⟨[], [("r", "")]⟩ "r").1 (by decide)
  rw [h]
  decide

/-! ### Sequential runs of Scaler operations (for the inventory invariants) -/

theorem scaleLoop_succ_ok (supply : Nat → String) (outcome : Nat → StartOutcome)
    (k n : Nat) (st : ScalerState) (id : String) (ho : outcome k = .ok id) :
    scaleLoop supply outcome k (n + 1) st =
      ⟨(scaleLoop supply outcome (k + 1) n ⟨mapInsert st.idle (supply k) id, st.busy⟩).state,
        (scaleLoop supply outcome (k + 1) n ⟨mapInsert st.idle (supply k) id, st.busy⟩).k,
        .start (supply k) ::
          (scaleLoop supply outcome (k + 1) n ⟨mapInsert st.idle (supply k) id, st.busy⟩).calls,
        (scaleLoop supply outcome (k + 1) n ⟨mapInsert st.idle (supply k) id, st.busy⟩).err⟩ := by
  simp [scaleLoop, ho]

/-- Well-formedness of the two inventory maps: duplicate-free keys and
the C2 disjointness invariant. -/
def ScalerWf (st : ScalerState) : Prop :=
  (mapKeys st.idle).Nodup ∧ (mapKeys st.busy).Nodup ∧
  (∀ x, x ∈ mapKeys st.idle → x ∉ mapKeys st.busy)

/-- Every tracked name was generated by a `startRunner` invocation with
index below `k`. -/
def NamesFrom (supply : Nat → String) (k : Nat) (st : ScalerState) : Prop :=
  ∀ x, x ∈ mapKeys st.idle ∨ x ∈ mapKeys st.busy → ∃ i, i < k ∧ supply i = x

theorem scaleLoop_preserves (supply : Nat → String) (outcome : Nat → StartOutcome)
    (hinj : Function.Injective supply) :
    ∀ (n k : Nat) (st : ScalerState), ScalerWf st → NamesFrom supply k st →
      ScalerWf (scaleLoop supply outcome k n st).state ∧
      NamesFrom supply (scaleLoop supply outcome k n st).k
        (scaleLoop supply outcome k n st).state ∧
      runnerCount (scaleLoop supply outcome k n st).state ≤ runnerCount st + n ∧
      k ≤ (scaleLoop supply outcome k n st).k := by
  intro n
  induction n with
  | zero => intro k st hwf hnf; exact ⟨hwf, hnf, by simp [scaleLoop_zero], Nat.le_refl k⟩
  | succ n ih =>
    intro k st hwf hnf
    have hweak : NamesFrom supply (k + 1) st := by
      intro x hx
      obtain ⟨i, hi, he⟩ := hnf x hx
      exact ⟨i, by omega, he⟩
    cases ho : outcome k with
    | jitErr e =>
      refine ⟨?_, ?_, ?_, ?_⟩ <;> simp [scaleLoop, ho] <;> first
        | exact hwf
        | exact hweak
        | omega
    | engineErr e =>
      refine ⟨?_, ?_, ?_, ?_⟩ <;> simp [scaleLoop, ho] <;> first
        | exact hwf
        | exact hweak
        | omega
    | ok id =>
      have hns : supply k ∉ mapKeys st.busy := by
        intro hmem
        obtain ⟨i, hi, he⟩ := hnf (supply k) (Or.inr hmem)
        have : i = k := hinj he
        omega
      have hwf' : ScalerWf ⟨mapInsert st.idle (supply k) id, st.busy⟩ := by
        refine ⟨mapKeys_nodup_mapInsert hwf.1, hwf.2.1, ?_⟩
        intro x hx
        rcases mem_mapKeys_mapInsert hx with h2 | h2
        · exact h2 ▸ hns
        · exact hwf.2.2 x h2
      have hnf' : NamesFrom supply (k + 1) ⟨mapInsert st.idle (supply k) id, st.busy⟩ := by
        intro x hx
        rcases hx with hx | hx
        · rcases mem_mapKeys_mapInsert hx with h2 | h2
          · exact ⟨k, by omega, h2.symm⟩
          · obtain ⟨i, hi, he⟩ := hnf x (Or.inl h2)
            exact ⟨i, by omega, he⟩
        · obtain ⟨i, hi, he⟩ := hnf x (Or.inr hx)
          exact ⟨i, by omega, he⟩
      have ihr := ih (k + 1) ⟨mapInsert st.idle (supply k) id, st.busy⟩ hwf' hnf'
      rw [scaleLoop_succ_ok supply outcome k n st id ho]
      refine ⟨ihr.1, ihr.2.1, ?_, ?_⟩
      · have hle := ihr.2.2.1
        have hins := mapInsert_length_le st.idle (supply k) id
        simp only [runnerCount] at hle ⊢
        push_cast at hle ⊢
        omega
      · show k ≤ (scaleLoop supply outcome (k + 1) n
          ⟨mapInsert st.idle (supply k) id, st.busy⟩).k
        have := ihr.2.2.2
        omega

/-- The final state of `HandleJobCompleted` is exactly the state left by
`removeRunner` (in particular it does not depend on the destroy result). -/
theorem handleJobCompleted_state (destroyRes : String → Option String)
    (st : ScalerState) (name : String) :
    (handleJobCompleted destroyRes st name).state = (removeRunner st name).1 := by
  by_cases hid : (removeRunner st name).2 = ""
  · simp [handleJobCompleted, hid]
  · cases hd : destroyRes (removeRunner st name).2 <;>
      simp [handleJobCompleted, hid, hd]

/-- One upstream event delivered to the Scaler. -/
inductive ScalerOp where
  | desired (count : Int)
  | jobStarted (name : String)
  | jobCompleted (name : String)
  | shutdownOp
deriving DecidableEq

/-- Scaler inventories plus the global `startRunner` invocation index. -/
structure RunState where
  st : ScalerState
  k : Nat
deriving DecidableEq

/-- Applying one event to the Scaler (state part only). -/
def stepOp (minR maxR : Int) (supply : Nat → String) (outcome : Nat → StartOutcome)
    (destroyRes : String → Option String) (rs : RunState) : ScalerOp → RunState
  | .desired count =>
      ⟨(handleDesiredRunnerCount minR maxR supply outcome rs.k rs.st count).state,
        (handleDesiredRunnerCount minR maxR supply outcome rs.k rs.st count).k⟩
  | .jobStarted name => ⟨(handleJobStarted rs.st name).1, rs.k⟩
  | .jobCompleted name => ⟨(handleJobCompleted destroyRes rs.st name).state, rs.k⟩
  | .shutdownOp => ⟨scalerShutdown rs.st, rs.k⟩

/-- A sequential run of events starting from the empty inventories. -/
def runOps (minR maxR : Int) (supply : Nat → String) (outcome : Nat → StartOutcome)
    (destroyRes : String → Option String) (ops : List ScalerOp) : RunState :=
  ops.foldl (stepOp minR maxR supply outcome destroyRes) ⟨⟨[], []⟩, 0⟩

/-- The inductive invariant carried through a run. -/
def GoodState (maxR : Int) (supply : Nat → String) (rs : RunState) : Prop :=
  ScalerWf rs.st ∧ NamesFrom supply rs.k rs.st ∧ runnerCount rs.st ≤ maxR

theorem removeRunner_preserves (st : ScalerState) (name : String)
    (hwf : ScalerWf st) :
    ScalerWf (removeRunner st name).1 ∧
    runnerCount (removeRunner st name).1 ≤ runnerCount st ∧
    (∀ x, x ∈ mapKeys (removeRunner st name).1.idle → x ∈ mapKeys st.idle) ∧
    (∀ x, x ∈ mapKeys (removeRunner st name).1.busy → x ∈ mapKeys st.busy) := by
  cases hb : mapLookup st.busy name with
  | some id =>
    have hred : removeRunner st name = (⟨st.idle, mapDelete st.busy name⟩, id) := by
      simp [removeRunner, hb]
    rw [hred]
    refine ⟨⟨hwf.1, mapKeys_nodup_mapDelete hwf.2.1, ?_⟩, ?_, ?_, ?_⟩
    · intro x hx hmem
      exact hwf.2.2 x hx (mapKeys_mapDelete_subset hmem).1
    · have := mapDelete_length_le st.busy name
      simp only [runnerCount]
      omega
    · exact fun x hx => hx
    · exact fun x hx => (mapKeys_mapDelete_subset hx).1
  | none =>
    cases hi : mapLookup st.idle name with
    | some id =>
      have hred : removeRunner st name = (⟨mapDelete st.idle name, st.busy⟩, id) := by
        simp [removeRunner, hb, hi]
      rw [hred]
      refine ⟨⟨mapKeys_nodup_mapDelete hwf.1, hwf.2.1, ?_⟩, ?_, ?_, ?_⟩
      · intro x hx
        exact hwf.2.2 x (mapKeys_mapDelete_subset hx).1
      · have := mapDelete_length_le st.idle name
        simp only [runnerCount]
        omega
      · exact fun x hx => (mapKeys_mapDelete_subset hx).1
      · exact fun x hx => hx
    | none =>
      have hred : removeRunner st name = (st, "") := by
        simp [removeRunner, hb, hi]
      rw [hred]
      exact ⟨hwf, le_refl _, fun x hx => hx, fun x hx => hx⟩

theorem stepOp_preserves (minR maxR : Int) (supply : Nat → String)
    (outcome : Nat → StartOutcome) (destroyRes : String → Option String)
    (hmax : 0 ≤ maxR) (hinj : Function.Injective supply)
    (rs : RunState) (op : ScalerOp) (h : GoodState maxR supply rs) :
    GoodState maxR supply (stepOp minR maxR supply outcome destroyRes rs op) := by
  obtain ⟨hwf, hnf, hcnt⟩ := h
  cases op with
  | desired count =>
    rcases lt_trichotomy (runnerCount rs.st) (min maxR (minR + count)) with hlt | heq | hgt
    · have hred := handleDesiredRunnerCount_gt_case minR maxR supply outcome rs.k rs.st
        count hlt
      have hloop := scaleLoop_preserves supply outcome hinj
        (min maxR (minR + count) - runnerCount rs.st).toNat rs.k rs.st hwf hnf
      have hcast : ((min maxR (minR + count) - runnerCount rs.st).toNat : Int) =
          min maxR (minR + count) - runnerCount rs.st :=
        Int.toNat_of_nonneg (by omega)
      refine ⟨?_, ?_, ?_⟩ <;> simp only [stepOp, hred]
      · exact hloop.1
      · exact hloop.2.1
      · have h1 := hloop.2.2.1
        have h2 : min maxR (minR + count) ≤ maxR := min_le_left _ _
        omega
    · have hred := handleDesiredRunnerCount_eq_case minR maxR supply outcome rs.k rs.st
        count heq.symm
      refine ⟨?_, ?_, ?_⟩ <;> simp only [stepOp, hred] <;> assumption
    · have hred := handleDesiredRunnerCount_lt_case minR maxR supply outcome rs.k rs.st
        count hgt
      refine ⟨?_, ?_, ?_⟩ <;> simp only [stepOp, hred] <;> assumption
  | jobStarted name =>
    cases hl : mapLookup rs.st.idle name with
    | none =>
      have hred : handleJobStarted rs.st name = (rs.st, none) := by
        simp [handleJobStarted, hl]
      refine ⟨?_, ?_, ?_⟩ <;> simp only [stepOp, hred] <;> assumption
    | some id =>
      have hmem : name ∈ mapKeys rs.st.idle := mapLookup_eq_some_mem hl
      have hnb : name ∉ mapKeys rs.st.busy := hwf.2.2 name hmem
      have hred : handleJobStarted rs.st name =
          (⟨mapDelete rs.st.idle name, mapInsert rs.st.busy name id⟩, none) := by
        simp [handleJobStarted, hl]
      refine ⟨⟨?_, ?_, ?_⟩, ?_, ?_⟩ <;> simp only [stepOp, hred]
      · exact mapKeys_nodup_mapDelete hwf.1
      · exact mapKeys_nodup_mapInsert hwf.2.1
      · intro x hx hxb
        obtain ⟨hxi, hxn⟩ := mapKeys_mapDelete_subset hx
        rcases mem_mapKeys_mapInsert hxb with h2 | h2
        · exact hxn h2
        · exact hwf.2.2 x hxi h2
      · intro x hx
        rcases hx with hx | hx
        · exact hnf x (Or.inl (mapKeys_mapDelete_subset hx).1)
        · rcases mem_mapKeys_mapInsert hx with h2 | h2
          · exact h2 ▸ hnf name (Or.inl hmem)
          · exact hnf x (Or.inr h2)
      · have h1 := mapDelete_length_of_mem hwf.1 hmem
        have h2 := mapInsert_length_of_not_mem id hnb
        simp only [runnerCount] at hcnt ⊢
        omega
  | jobCompleted name =>
    have hrm := removeRunner_preserves rs.st name hwf
    have hst := handleJobCompleted_state destroyRes rs.st name
    refine ⟨?_, ?_, ?_⟩ <;> simp only [stepOp, hst]
    · exact hrm.1
    · intro x hx
      rcases hx with hx | hx
      · exact hnf x (Or.inl (hrm.2.2.1 x hx))
      · exact hnf x (Or.inr (hrm.2.2.2 x hx))
    · have := hrm.2.1
      omega
  | shutdownOp =>
    refine ⟨⟨?_, ?_, ?_⟩, ?_, ?_⟩ <;> simp [stepOp, scalerShutdown, runnerCount, mapKeys,
      NamesFrom]
    omega

/-- C2.  Starting from the empty inventories with `maxRunners ≥ 0` and
distinct generated runner names, every sequential run of Scaler
operations (`HandleDesiredRunnerCount`, `HandleJobStarted`,
`HandleJobCompleted`, `Shutdown`) keeps the two inventory invariants: a
name appears in at most one of `idle` / `busy`, and
`|idle| + |busy| ≤ maxRunners`. -/
theorem scaler_run_preserves_invariants (minR maxR : Int) (supply : Nat → String)
    (outcome : Nat → StartOutcome) (destroyRes : String → Option String)
    (hmax : 0 ≤ maxR) (hinj : Function.Injective supply) (ops : List ScalerOp) :
    (∀ n, n ∈ mapKeys (runOps minR maxR supply outcome destroyRes ops).st.idle →
      n ∉ mapKeys (runOps minR maxR supply outcome destroyRes ops).st.busy) ∧
    runnerCount (runOps minR maxR supply outcome destroyRes ops).st ≤ maxR := by
  have hrun : ∀ (l : List ScalerOp) (rs : RunState), GoodState maxR supply rs →
      GoodState maxR supply (l.foldl (stepOp minR maxR supply outcome destroyRes) rs) := by
    intro l
    induction l with
    | nil => intro rs h; exact h
    | cons op rest ih =>
      intro rs h
      exact ih _ (stepOp_preserves minR maxR supply outcome destroyRes hmax hinj rs op h)
  have h0 : GoodState maxR supply ⟨⟨[], []⟩, 0⟩ := by
    refine ⟨⟨?_, ?_, ?_⟩, ?_, ?_⟩ <;> simp [mapKeys, NamesFrom, runnerCount]
    omega
  have hfin := hrun ops ⟨⟨[], []⟩, 0⟩ h0
  exact ⟨hfin.1.2.2, hfin.2.2⟩

/-- Witness for C2: a scale-up, a job start and a job completion under
`maxRunners = 3` keep the inventory within bounds. -/
theorem scaler_run_preserves_invariants_witness :
    runnerCount (runOps 0 3 wSupply (fun _ => .ok "cid") (fun _ => none)
      [.desired 2, .jobStarted (wSupply 0), .jobCompleted (wSupply 0)]).st ≤ 3 :=
  (scaler_run_preserves_invariants 0 3 wSupply (fun _ => .ok "cid") (fun _ => none)
    (by decide) wSupply_injective
    [.desired 2, .jobStarted (wSupply 0), .jobCompleted (wSupply 0)]).2

/-!
## Engine backends

### 404 classification (`internal/engine/gcp/gcp.go`)

`searchString` / `containsString` / `contains404Pattern` are the hand
rolled substring matchers the cloud engine uses to classify "already
gone" errors.  Go slices bytes; the patterns are all ASCII so the
character-level embedding coincides.
-/

/-- `searchString(s, substr)`: scan every window of length `len(substr)`. -/
def searchString (s sub : String) : Bool :=
  (List.range (s.length - sub.length + 1)).any
    (fun i => (s.data.drop i).take sub.length == sub.data)

/-- `containsString(s, substr)`. -/
def containsString (s sub : String) : Bool :=
  decide (sub.length ≤ s.length) && searchString s sub

/-- `contains404Pattern(s)`: any of the three GCP not-found signatures. -/
def contains404Pattern (s : String) : Bool :=
  ["Error 404", "code = NotFound", "notFound"].any
    (fun pattern => containsString s pattern)

theorem containsString_iff (s sub : String) :
    containsString s sub = true ↔ sub.data <:+: s.data := by
  unfold containsString searchString
  rw [Bool.and_eq_true, decide_eq_true_eq, List.any_eq_true]
  constructor
  · rintro ⟨hle, i, hi, heq⟩
    rw [beq_iff_eq] at heq
    refine ⟨s.data.take i, (s.data.drop i).drop sub.length, ?_⟩
    calc s.data.take i ++ sub.data ++ (s.data.drop i).drop sub.length
        = s.data.take i ++
            ((s.data.drop i).take sub.length ++ (s.data.drop i).drop sub.length) := by
          rw [← heq, List.append_assoc]
      _ = s.data.take i ++ s.data.drop i := by rw [List.take_append_drop]
      _ = s.data := List.take_append_drop i s.data
  · rintro ⟨pre, post, hsplit⟩
    have hlen : s.data.length = pre.length + sub.data.length + post.length := by
      rw [← hsplit]
      simp only [List.length_append]
    have hslen : s.length = s.data.length := rfl
    have hsublen : sub.length = sub.data.length := rfl
    refine ⟨by omega, pre.length, ?_, ?_⟩
    · rw [List.mem_range]
      omega
    · rw [beq_iff_eq]
      have hdrop : s.data.drop pre.length = sub.data ++ post := by
        rw [← hsplit, List.append_assoc, List.drop_left]
      rw [hdrop, hsublen, List.take_left]

theorem contains404Pattern_iff (s : String) :
    contains404Pattern s = true ↔
      ("Error 404".data <:+: s.data ∨ "code = NotFound".data <:+: s.data ∨
        "notFound".data <:+: s.data) := by
  simp [contains404Pattern, containsString_iff]

/-!
### Container-daemon engine (`internal/engine/docker`)

Daemon API effects (`ContainerCreate`, `ContainerStart`,
`ContainerRemove`, the never-issued client close) are oracles; each
operation returns the list of daemon calls it made.
-/

/-- One Docker daemon API call the engine can make. -/
inductive DockerCall where
  | create (name : String)
  | start (id : String)
  | remove (id : String)
  | close
deriving DecidableEq

/-- The docker `Engine` struct: its `containers` map (name → containerID). -/
structure DockerEngine where
  containers : List (String × String)
deriving DecidableEq

/-- Docker `StartRunner`: `ContainerCreate`; on success `ContainerStart`;
if the start fails, best-effort `ContainerRemove(force)` of the created
container; only a fully started container is recorded. -/
def dockerStartRunner (createRes : Except String String)
    (startRes : String → Option String) (e : DockerEngine) (name : String) :
    DockerEngine × List DockerCall × Except String String :=
  match createRes with
  | .error msg =>
      (e, [.create name], .error ("container create " ++ name ++ ": " ++ msg))
  | .ok id =>
    match startRes id with
    | some msg =>
        (e, [.create name, .start id, .remove id],
          .error ("container start " ++ name ++ ": " ++ msg))
    | none => (⟨mapInsert e.containers name id⟩, [.create name, .start id], .ok id)

/-- The loop of docker `Shutdown` over the snapshot: force-remove each
entry, remembering the first error. -/
def dockerShutdownLoop (removeRes : String → Option String) :
    List (String × String) → List DockerCall × Option String
  | [] => ([], none)
  | (_, id) :: rest =>
    (.remove id :: (dockerShutdownLoop removeRes rest).1,
      match removeRes id with
      | some msg => some msg
      | none => (dockerShutdownLoop removeRes rest).2)

/-- Docker `Shutdown`: snapshot, force-remove every entry, clear the map,
return the first error.  The daemon client is never closed. -/
def dockerShutdown (removeRes : String → Option String) (e : DockerEngine) :
    DockerEngine × List DockerCall × Option String :=
  (⟨[]⟩, (dockerShutdownLoop removeRes e.containers).1,
    (dockerShutdownLoop removeRes e.containers).2)

/-!
### Cloud-VM engine (`internal/engine/gcp/gcp.go`)
-/

/-- One GCP API call the engine can make (`Insert`, `Delete`, and the
two client closes done by `Shutdown`). -/
inductive GcpCall where
  | insert (name : String)
  | delete (id : String)
  | closeInstances
  | closeOps
deriving DecidableEq

/-- The gcp `Engine` struct: its `instances` map (runner name → instance
name). -/
structure GcpEngine where
  instances : List (String × String)
deriving DecidableEq

/-- GCP `StartRunner`: `Insert`, wait for the operation, then record
`instances[name] = name` and return `name`.  Neither failure path issues
a `Delete`. -/
def gcpStartRunner (insertRes waitRes : Option String) (e : GcpEngine)
    (name : String) : GcpEngine × List GcpCall × Except String String :=
  match insertRes with
  | some msg => (e, [.insert name], .error ("insert instance " ++ name ++ ": " ++ msg))
  | none =>
    match waitRes with
    | some msg =>
        (e, [.insert name], .error ("waiting for instance " ++ name ++ ": " ++ msg))
    | none => (⟨mapInsert e.instances name name⟩, [.insert name], .ok name)

/-- `removeFromTracking`: delete the first entry whose value equals `id`
(the Go loop breaks after the first match). -/
def removeFromTracking : List (String × String) → String → List (String × String)
  | [], _ => []
  | (n, v) :: rest, id => if v = id then rest else (n, v) :: removeFromTracking rest id

/-- GCP `DestroyRunner`: `Delete`, wait; a 404-classified error from
either step is swallowed (tracking cleared, nil returned); any other
error is propagated with tracking untouched. -/
def gcpDestroyRunner (deleteRes waitRes : String → Option String)
    (e : GcpEngine) (id : String) : GcpEngine × List GcpCall × Option String :=
  match deleteRes id with
  | some msg =>
    if contains404Pattern msg then
      (⟨removeFromTracking e.instances id⟩, [.delete id], none)
    else (e, [.delete id], some ("delete instance " ++ id ++ ": " ++ msg))
  | none =>
    match waitRes id with
    | some msg =>
      if contains404Pattern msg then
        (⟨removeFromTracking e.instances id⟩, [.delete id], none)
      else (e, [.delete id], some ("waiting for delete of " ++ id ++ ": " ++ msg))
    | none => (⟨removeFromTracking e.instances id⟩, [.delete id], none)

/-- `firstErr` combination: keep the first error seen. -/
def orFirst (a b : Option String) : Option String :=
  match a with
  | some msg => some msg
  | none => b

/-- The loop of gcp `Shutdown` over the snapshot: `DestroyRunner` each
entry, remembering the first error. -/
def gcpShutdownLoop (deleteRes waitRes : String → Option String) :
    GcpEngine → List (String × String) → GcpEngine × List GcpCall × Option String
  | e, [] => (e, [], none)
  | e, (_, id) :: rest =>
    ((gcpShutdownLoop deleteRes waitRes
        (gcpDestroyRunner deleteRes waitRes e id).1 rest).1,
      (gcpDestroyRunner deleteRes waitRes e id).2.1 ++
        (gcpShutdownLoop deleteRes waitRes
          (gcpDestroyRunner deleteRes waitRes e id).1 rest).2.1,
      orFirst (gcpDestroyRunner deleteRes waitRes e id).2.2
        (gcpShutdownLoop deleteRes waitRes
          (gcpDestroyRunner deleteRes waitRes e id).1 rest).2.2)

/-- GCP `Shutdown`: snapshot, destroy every entry, clear the map, close
both API clients (close errors surface only when no destroy error was
captured), return the first error. -/
def gcpShutdown (deleteRes waitRes : String → Option String)
    (closeInstRes closeOpsRes : Option String) (e : GcpEngine) :
    GcpEngine × List GcpCall × Option String :=
  (⟨[]⟩,
    (gcpShutdownLoop deleteRes waitRes e e.instances).2.1 ++ [.closeInstances, .closeOps],
    orFirst (gcpShutdownLoop deleteRes waitRes e e.instances).2.2
      (orFirst closeInstRes closeOpsRes))

/-- The error of a gcp destroy depends only on the oracles and the id. -/
def gcpDestroyErr (deleteRes waitRes : String → Option String) (id : String) :
    Option String :=
  (gcpDestroyRunner deleteRes waitRes ⟨[]⟩ id).2.2

theorem gcpDestroyRunner_calls_err (deleteRes waitRes : String → Option String)
    (e : GcpEngine) (id : String) :
    (gcpDestroyRunner deleteRes waitRes e id).2.1 = [.delete id] ∧
    (gcpDestroyRunner deleteRes waitRes e id).2.2 = gcpDestroyErr deleteRes waitRes id := by
  unfold gcpDestroyErr
  cases hd : deleteRes id with
  | some msg =>
    by_cases h4 : contains404Pattern msg = true <;>
      simp [gcpDestroyRunner, hd, h4]
  | none =>
    cases hw : waitRes id with
    | some msg =>
      by_cases h4 : contains404Pattern msg = true <;>
        simp [gcpDestroyRunner, hd, hw, h4]
    | none => simp [gcpDestroyRunner, hd, hw]

theorem dockerShutdownLoop_spec (removeRes : String → Option String) :
    ∀ l : List (String × String),
      (dockerShutdownLoop removeRes l).1 = l.map (fun p => DockerCall.remove p.2) ∧
      (dockerShutdownLoop removeRes l).2 =
        (l.filterMap (fun p => removeRes p.2)).head? := by
  intro l
  induction l with
  | nil => exact ⟨rfl, rfl⟩
  | cons p rest ih =>
    obtain ⟨n, id⟩ := p
    constructor
    · simp only [dockerShutdownLoop, List.map_cons]
      rw [ih.1]
    · cases hr : removeRes id with
      | some msg => simp [dockerShutdownLoop, hr, List.filterMap_cons]
      | none =>
        simp only [dockerShutdownLoop, hr, List.filterMap_cons]
        exact ih.2

theorem gcpShutdownLoop_spec (deleteRes waitRes : String → Option String) :
    ∀ (l : List (String × String)) (e : GcpEngine),
      (gcpShutdownLoop deleteRes waitRes e l).2.1 =
        l.map (fun p => GcpCall.delete p.2) ∧
      (gcpShutdownLoop deleteRes waitRes e l).2.2 =
        (l.filterMap (fun p => gcpDestroyErr deleteRes waitRes p.2)).head? := by
  intro l
  induction l with
  | nil => intro e; exact ⟨rfl, rfl⟩
  | cons p rest ih =>
    intro e
    obtain ⟨n, id⟩ := p
    have hd := gcpDestroyRunner_calls_err deleteRes waitRes e id
    have ihr := ih (gcpDestroyRunner deleteRes waitRes e id).1
    constructor
    · simp only [gcpShutdownLoop, List.map_cons]
      rw [hd.1, ihr.1]
      rfl
    · simp only [gcpShutdownLoop, List.filterMap_cons]
      rw [hd.2, ihr.2]
      cases hge : gcpDestroyErr deleteRes waitRes id with
      | some msg => simp [orFirst]
      | none => simp [orFirst]

/-- Counterexample to C4 as stated: the docker engine's `Shutdown` run
over a one-container inventory issues exactly one force-remove and no
client close at all — the docker backend never releases its daemon
client, so "every Engine backend ... releases the backend clients" fails. -/
theorem docker_shutdown_never_closes_client :
    dockerShutdown (fun _ => none) ⟨[("r1", "c1")]⟩ =
      (⟨[]⟩, [DockerCall.remove "c1"], none) ∧
    DockerCall.close ∉ (dockerShutdown (fun _ => none) ⟨[("r1", "c1")]⟩).2.1 := by
  exact ⟨by decide, by decide⟩

/-- C4 (amended).  Both backends' `Shutdown`: the inventory is cleared
unconditionally; one destroy is attempted for every snapshot entry, in
order, regardless of earlier failures; the returned error is the first
failure in iteration order (for gcp, destroy failures take precedence
over the two client-close errors).  The gcp backend closes both API
clients; the docker backend issues no close of its daemon client. -/
theorem engine_shutdown_spec (removeRes deleteRes waitRes : String → Option String)
    (closeInstRes closeOpsRes : Option String)
    (de : DockerEngine) (ge : GcpEngine) :
    (dockerShutdown removeRes de).1 = ⟨[]⟩ ∧
    (dockerShutdown removeRes de).2.1 =
      de.containers.map (fun p => DockerCall.remove p.2) ∧
    (dockerShutdown removeRes de).2.2 =
      (de.containers.filterMap (fun p => removeRes p.2)).head? ∧
    DockerCall.close ∉ (dockerShutdown removeRes de).2.1 ∧
    (gcpShutdown deleteRes waitRes closeInstRes closeOpsRes ge).1 = ⟨[]⟩ ∧
    (gcpShutdown deleteRes waitRes closeInstRes closeOpsRes ge).2.1 =
      ge.instances.map (fun p => GcpCall.delete p.2) ++ [.closeInstances, .closeOps] ∧
    (gcpShutdown deleteRes waitRes closeInstRes closeOpsRes ge).2.2 =
      orFirst ((ge.instances.filterMap
          (fun p => gcpDestroyErr deleteRes waitRes p.2)).head?)
        (orFirst closeInstRes closeOpsRes) ∧
    GcpCall.closeInstances ∈ (gcpShutdown deleteRes waitRes closeInstRes closeOpsRes ge).2.1 ∧
    GcpCall.closeOps ∈ (gcpShutdown deleteRes waitRes closeInstRes closeOpsRes ge).2.1 := by
  have hdl := dockerShutdownLoop_spec removeRes de.containers
  have hgl := gcpShutdownLoop_spec deleteRes waitRes ge.instances ge
  refine ⟨rfl, hdl.1, hdl.2, ?_, rfl, ?_, ?_, ?_, ?_⟩
  · show DockerCall.close ∉ (dockerShutdownLoop removeRes de.containers).1
    rw [hdl.1]
    simp
  · show (gcpShutdownLoop deleteRes waitRes ge ge.instances).2.1 ++ _ = _
    rw [hgl.1]
  · show orFirst (gcpShutdownLoop deleteRes waitRes ge ge.instances).2.2 _ = _
    rw [hgl.2]
  · show GcpCall.closeInstances ∈
      (gcpShutdownLoop deleteRes waitRes ge ge.instances).2.1 ++ _
    simp
  · show GcpCall.closeOps ∈
      (gcpShutdownLoop deleteRes waitRes ge ge.instances).2.1 ++ _
    simp

instance : DecidableEq (Except String String) := fun
  | .error a, .error b =>
    if h : a = b then isTrue (by subst h; rfl) else isFalse (by simp [h])
  | .error _, .ok _ => isFalse (by simp)
  | .ok _, .error _ => isFalse (by simp)
  | .ok a, .ok b =>
    if h : a = b then isTrue (by subst h; rfl) else isFalse (by simp [h])

/-- Counterexample to C3 as stated: on the cloud-VM backend, when the
instance `Insert` succeeds but the operation wait fails, `StartRunner`
returns the error without issuing any `Delete` of the created instance —
no best-effort destroy is attempted (only `backend_id` stays untracked). -/
theorem gcp_startRunner_no_cleanup_on_wait_failure :
    gcpStartRunner none (some "operation timed out") ⟨[]⟩ "runner-a" =
      (⟨[]⟩, [GcpCall.insert "runner-a"],
        .error "waiting for instance runner-a: operation timed out") ∧
    GcpCall.delete "runner-a" ∉
      (gcpStartRunner none (some "operation timed out") ⟨[]⟩ "runner-a").2.1 := by
  exact ⟨by decide, by decide⟩

/-- C3 (amended).  On every `StartRunner` error neither backend records
the `backend_id` in its inventory.  The docker backend additionally
attempts a best-effort force-remove when the container was created but
failed to start; the gcp backend attempts no delete when the insert
succeeded but the operation wait failed. -/
theorem startRunner_error_tracking_spec (createRes : Except String String)
    (startRes : String → Option String) (insertRes waitRes : Option String)
    (de : DockerEngine) (ge : GcpEngine) (name : String) :
    (∀ msg, createRes = .error msg →
      dockerStartRunner createRes startRes de name =
        (de, [.create name], .error ("container create " ++ name ++ ": " ++ msg))) ∧
    (∀ id msg, createRes = .ok id → startRes id = some msg →
      dockerStartRunner createRes startRes de name =
        (de, [.create name, .start id, .remove id],
          .error ("container start " ++ name ++ ": " ++ msg))) ∧
    (∀ msg, insertRes = some msg →
      gcpStartRunner insertRes waitRes ge name =
        (ge, [.insert name], .error ("insert instance " ++ name ++ ": " ++ msg))) ∧
    (∀ msg, insertRes = none → waitRes = some msg →
      gcpStartRunner insertRes waitRes ge name =
        (ge, [.insert name],
          .error ("waiting for instance " ++ name ++ ": " ++ msg))) := by
  refine ⟨?_, ?_, ?_, ?_⟩
  · intro msg hc
    simp [dockerStartRunner, hc]
  · intro id msg hc hs
    simp [dockerStartRunner, hc, hs]
  · intro msg hi
    simp [gcpStartRunner, hi]
  · intro msg hi hw
    simp [gcpStartRunner, hi, hw]

/-- Witness for C3 (amended): a docker container that is created but
fails to start is force-removed and left untracked. -/
theorem startRunner_error_tracking_spec_witness :
    dockerStartRunner (.ok "cid-1") (fun _ => some "oom") ⟨[]⟩ "r1" =
      (⟨[]⟩, [.create "r1", .start "cid-1", .remove "cid-1"],
        .error "container start r1: oom") := by
  have h := (startRunner_error_tracking_spec (.ok "cid-1") (fun _ => some "oom")
    none none ⟨[]⟩ ⟨[]⟩ "r1").2.1 "cid-1" "oom" rfl rfl
  rw [h]
  decide

/-- C5.  GCP `DestroyRunner`: when `Delete` (or the operation wait)
fails with an error whose text contains one of the substrings
"Error 404", "code = NotFound", "notFound", it returns nil and removes
the matching entry from the engine inventory; any other error from
either step is propagated wrapped and the inventory is untouched. -/
theorem gcp_destroyRunner_notFound_spec (deleteRes waitRes : String → Option String)
    (e : GcpEngine) (id : String) :
    (∀ msg, deleteRes id = some msg →
      ("Error 404".data <:+: msg.data ∨ "code = NotFound".data <:+: msg.data ∨
        "notFound".data <:+: msg.data) →
      gcpDestroyRunner deleteRes waitRes e id =
        (⟨removeFromTracking e.instances id⟩, [.delete id], none)) ∧
    (∀ msg, deleteRes id = some msg →
      ¬("Error 404".data <:+: msg.data ∨ "code = NotFound".data <:+: msg.data ∨
        "notFound".data <:+: msg.data) →
      gcpDestroyRunner deleteRes waitRes e id =
        (e, [.delete id], some ("delete instance " ++ id ++ ": " ++ msg))) ∧
    (∀ msg, deleteRes id = none → waitRes id = some msg →
      ("Error 404".data <:+: msg.data ∨ "code = NotFound".data <:+: msg.data ∨
        "notFound".data <:+: msg.data) →
      gcpDestroyRunner deleteRes waitRes e id =
        (⟨removeFromTracking e.instances id⟩, [.delete id], none)) ∧
    (∀ msg, deleteRes id = none → waitRes id = some msg →
      ¬("Error 404".data <:+: msg.data ∨ "code = NotFound".data <:+: msg.data ∨
        "notFound".data <:+: msg.data) →
      gcpDestroyRunner deleteRes waitRes e id =
        (e, [.delete id], some ("waiting for delete of " ++ id ++ ": " ++ msg))) := by
  refine ⟨?_, ?_, ?_, ?_⟩
  · intro msg hd h404
    have h4 : contains404Pattern msg = true := (contains404Pattern_iff msg).mpr h404
    simp [gcpDestroyRunner, hd, h4]
  · intro msg hd h404
    have h4 : contains404Pattern msg = false := by
      cases hcp : contains404Pattern msg
      · rfl
      · exact absurd ((contains404Pattern_iff msg).mp hcp) h404
    simp [gcpDestroyRunner, hd, h4]
  · intro msg hd hw h404
    have h4 : contains404Pattern msg = true := (contains404Pattern_iff msg).mpr h404
    simp [gcpDestroyRunner, hd, hw, h4]
  · intro msg hd hw h404
    have h4 : contains404Pattern msg = false := by
      cases hcp : contains404Pattern msg
      · rfl
      · exact absurd ((contains404Pattern_iff msg).mp hcp) h404
    simp [gcpDestroyRunner, hd, hw, h4]

/-- Witness for C5: a `Delete` failing with
"googleapi: Error 404: not found" is swallowed and "vm-1" leaves the
inventory. -/
theorem gcp_destroyRunner_notFound_spec_witness :
    gcpDestroyRunner (fun _ => some "googleapi: Error 404: not found")
      (fun _ => none) ⟨[("vm-1", "vm-1")]⟩ "vm-1" =
      (⟨[]⟩, [.delete "vm-1"], none) := by
  have h := (gcp_destroyRunner_notFound_spec
    (fun _ => some "googleapi: Error 404: not found") (fun _ => none)
    ⟨[("vm-1", "vm-1")]⟩ "vm-1").1 "googleapi: Error 404: not found" rfl
    ((contains404Pattern_iff "googleapi: Error 404: not found").mp (by decide))
  rw [h]
  decide
